import Mathlib

/-!
Verification of the Texas Hold'em odds calculator (poker-odds-calculator.js).

The JavaScript source is shallowly embedded below.  Cards are the integers
`suit * 13 + rank` (rank 0–12 for 2–A, suit 0–3 for s,h,d,c), exactly as in
the source.  JavaScript `Map` iteration order never influences the values we
embed: `sortedCounts` and `keyRanks` are produced by sorting with comparator
functions that totally order the (distinct) entries, so the sorted output is
the unique ordered sequence regardless of the insertion order of the map.
JavaScript numbers are modelled by `JSNum`: an exact rational together with
the special values NaN and ±Infinity; this represents every value the
aggregation step of the source can produce (counters divided by the trial
count, scaled, subtracted and rounded to two decimals).
-/

/-- Hand rank constants, from the source's `HAND_RANKS` object. -/
def HIGH_CARD : Nat := 0

def ONE_PAIR : Nat := 1

def TWO_PAIR : Nat := 2

def THREE_OF_A_KIND : Nat := 3

def STRAIGHT : Nat := 4

def FLUSH : Nat := 5

def FULL_HOUSE : Nat := 6

def FOUR_OF_A_KIND : Nat := 7

def STRAIGHT_FLUSH : Nat := 8

def ROYAL_FLUSH : Nat := 9

/-- Entries of the source's `RANK_MAP` object, in source order. -/
def RANK_ENTRIES : List (Char × Nat) :=
  [('2', 0), ('3', 1), ('4', 2), ('5', 3), ('6', 4), ('7', 5), ('8', 6),
   ('9', 7), ('T', 8), ('J', 9), ('Q', 10), ('K', 11), ('A', 12)]

/-- Entries of the source's `SUIT_MAP` object, in source order. -/
def SUIT_ENTRIES : List (Char × Nat) :=
  [('s', 0), ('h', 1), ('d', 2), ('c', 3)]

/-- Property read `RANK_MAP[c]`; `none` models the JavaScript `undefined`
result for an unrecognized character. -/
def RANK_MAP (c : Char) : Option Nat := RANK_ENTRIES.lookup c

/-- Property read `SUIT_MAP[c]`. -/
def SUIT_MAP (c : Char) : Option Nat := SUIT_ENTRIES.lookup c

/-- Embedding of `parseCard`.  The source computes `suit * 13 + rank` where
either lookup may be `undefined`; in that case the arithmetic yields `NaN`
and no error is raised.  `none` models that `NaN` result. -/
def parseCard (rankStr suitStr : Char) : Option Nat :=
  match RANK_MAP rankStr, SUIT_MAP suitStr with
  | some rank, some suit => some (suit * 13 + rank)
  | _, _ => none

/-- Embedding of `getRank`: `card % 13`. -/
def getRank (card : Nat) : Nat := card % 13

/-- Embedding of `getSuit`: `Math.floor(card / 13)`. -/
def getSuit (card : Nat) : Nat := card / 13

/-- Multiplicity of rank `r` among `cards` (the source's `countRanks` map,
read back at one rank). -/
def countRank (cards : List Nat) (r : Nat) : Nat :=
  (cards.filter (fun c => getRank c == r)).length

/-- Multiplicity of suit `s` among `cards` (the source's `countSuits` map,
read back at one suit). -/
def countSuit (cards : List Nat) (s : Nat) : Nat :=
  (cards.filter (fun c => getSuit c == s)).length

/-- Embedding of `isFlush`: some suit that occurs among the cards occurs at
least five times. -/
def isFlush (cards : List Nat) : Bool :=
  (cards.map getSuit).any (fun s => 5 ≤ countSuit cards s)

/-- Embedding of `isStraight`.  The source deduplicates and sorts the ranks
ascending, accepts the wheel `{A,2,3,4,5}` as a special case, and otherwise
scans the sorted distinct ranks for a window of five consecutive values. -/
def isStraight (ranks : List Nat) : Bool :=
  let uniqueRanks := (ranks.dedup).insertionSort (fun a b => a ≤ b)
  if [12, 0, 1, 2, 3].all (fun r => uniqueRanks.contains r) then
    true
  else
    (List.range (uniqueRanks.length - 4)).any (fun i =>
      (List.range 4).all (fun j =>
        uniqueRanks.getD (i + j + 1) 0 == uniqueRanks.getD i 0 + j + 1))

/-- Distinct ranks among the cards (the key set of the source's rank-count
map). -/
def distinctRanks (cards : List Nat) : List Nat :=
  (cards.map getRank).dedup

/-- Embedding of `sortedCounts`: the rank multiplicities sorted descending. -/
def sortedCounts (cards : List Nat) : List Nat :=
  ((distinctRanks cards).map (fun r => countRank cards r)).insertionSort
    (fun a b => b ≤ a)

/-- Ordering used for `keyRanks` in the source: multiplicity descending,
then rank descending. -/
def keyRankOrder (cards : List Nat) (a b : Nat) : Prop :=
  countRank cards b < countRank cards a ∨
    (countRank cards a = countRank cards b ∧ b ≤ a)

instance (cards : List Nat) : DecidableRel (keyRankOrder cards) := by
  intro a b
  unfold keyRankOrder
  infer_instance

/-- Embedding of the `keyRanks` computation in `evaluateHand`: the distinct
ranks sorted by multiplicity descending, rank descending. -/
def keyRanks (cards : List Nat) : List Nat :=
  (distinctRanks cards).insertionSort (keyRankOrder cards)

/-- Result record of `evaluateHand` (`rank` and `keyRanks` fields, as in the
source). -/
structure HandEval where
  rank : Nat
  keyRanks : List Nat
deriving DecidableEq, Repr

/-- The royal test of the straight-flush branch, from the source:
`hasTen && hasJack && hasQueen && hasKing && hasAce`, each an `includes`
test on the ranks of all seven cards. -/
def royalCondition (ranks : List Nat) : Bool :=
  ranks.contains 8 && ranks.contains 9 && ranks.contains 10 &&
    ranks.contains 11 && ranks.contains 12

/-- Embedding of `evaluateHand`.  The eleven-way `if` chain is translated
branch for branch; `sc.get? i == some v` mirrors the JavaScript
`sortedCounts[i] === v`, which is `false` when the index is out of range
(`undefined === v`). -/
def evaluateHand (cards : List Nat) : HandEval :=
  let ranks := cards.map getRank
  let flush := isFlush cards
  let straight := isStraight ranks
  let sc := sortedCounts cards
  let handRank :=
    if flush && straight then
      if royalCondition ranks then
        ROYAL_FLUSH
      else
        STRAIGHT_FLUSH
    else if sc.get? 0 == some 4 then FOUR_OF_A_KIND
    else if sc.get? 0 == some 3 && sc.get? 1 == some 2 then FULL_HOUSE
    else if flush then FLUSH
    else if straight then STRAIGHT
    else if sc.get? 0 == some 3 then THREE_OF_A_KIND
    else if sc.get? 0 == some 2 && sc.get? 1 == some 2 then TWO_PAIR
    else if sc.get? 0 == some 2 then ONE_PAIR
    else HIGH_CARD
  { rank := handRank, keyRanks := keyRanks cards }

/-- Embedding of the key-comparison loop of `compareHands`.  The source
iterates over the indices of the FIRST hand's key; when the second key is
exhausted, `keyRanks2[i]` is `undefined` and both numeric comparisons are
`false`, so the loop just continues (second equation). -/
def compareKeys : List Nat → List Nat → Int
  | [], _ => 0
  | _ :: k1, [] => compareKeys k1 []
  | a :: k1, b :: k2 =>
    if b < a then 1
    else if a < b then -1
    else compareKeys k1 k2

/-- Embedding of `compareHands`: category first, then the key loop. -/
def compareHands (hand1 hand2 : HandEval) : Int :=
  if hand2.rank < hand1.rank then 1
  else if hand1.rank < hand2.rank then -1
  else compareKeys hand1.keyRanks hand2.keyRanks

/-- JavaScript number model used by the aggregation step: an exact rational,
NaN, or a signed infinity.  The source only ever reaches these values there
(counter arithmetic, division, scaling, subtraction, two-decimal rounding);
binary floating error is irrelevant to the properties proved below and is
noted where the model is used. -/
inductive JSNum where
  | num : ℚ → JSNum
  | nan : JSNum
  | posInf : JSNum
  | negInf : JSNum
deriving DecidableEq, Repr

/-- JavaScript division for the operand shapes reachable in the source:
`0/0` is NaN, `x/0` with `x ≠ 0` is a signed infinity, and any NaN operand
gives NaN. -/
def jsDiv : JSNum → JSNum → JSNum
  | .num a, .num b =>
    if b = 0 then
      if a = 0 then .nan else if 0 < a then .posInf else .negInf
    else .num (a / b)
  | _, _ => .nan

/-- JavaScript multiplication for the operand shapes reachable in the source
(the second operand is always the finite constant 100 there). -/
def jsMul : JSNum → JSNum → JSNum
  | .num a, .num b => .num (a * b)
  | .posInf, .num b => if b = 0 then .nan else if 0 < b then .posInf else .negInf
  | .negInf, .num b => if b = 0 then .nan else if 0 < b then .negInf else .posInf
  | .num a, .posInf => if a = 0 then .nan else if 0 < a then .posInf else .negInf
  | .num a, .negInf => if a = 0 then .nan else if 0 < a then .negInf else .posInf
  | .posInf, .posInf => .posInf
  | .negInf, .negInf => .posInf
  | .posInf, .negInf => .negInf
  | .negInf, .posInf => .negInf
  | _, _ => .nan

/-- JavaScript subtraction for the operand shapes reachable in the source. -/
def jsSub : JSNum → JSNum → JSNum
  | .num a, .num b => .num (a - b)
  | .num _, .posInf => .negInf
  | .num _, .negInf => .posInf
  | .posInf, .num _ => .posInf
  | .negInf, .num _ => .negInf
  | .posInf, .negInf => .posInf
  | .negInf, .posInf => .negInf
  | _, _ => .nan

/-- Embedding of `parseFloat(x.toFixed(2))`: round to the nearest multiple
of 1/100, ties toward the larger value (the `toFixed` rule "if there are two
such n, pick the larger n"); NaN and the infinities round to themselves. -/
def round2 : JSNum → JSNum
  | .num q => .num ((⌊q * 100 + 1 / 2⌋ : ℚ) / 100)
  | .nan => .nan
  | .posInf => .posInf
  | .negInf => .negInf

/-- Validation failures of `calculatePokerOdds` (the three `throw new Error`
statements of the source, in source order); the spec's taxonomy calls all
three `InvalidInputError`. -/
inductive PokerError where
  | holeCardCount : PokerError
  | communityCardCount : PokerError
  | opponentCount : PokerError
deriving DecidableEq, Repr

/-- Result record of `calculatePokerOdds` (`win`, `tie`, `lose`,
`simulations`). -/
structure SimResult where
  win : JSNum
  tie : JSNum
  lose : JSNum
  simulations : Int
deriving DecidableEq, Repr

/-- The comparison loop of one trial.  `t` accumulates the `hasTie` flag;
the source sets `isWinner = false` and breaks on the first strict loss,
records a tie on an equal comparison, and otherwise continues. -/
def trialFlagsGo (my : HandEval) : List HandEval → Bool → Bool × Bool
  | [], t => (true, t)
  | opp :: rest, t =>
    let c := compareHands my opp
    if c < 0 then (false, t)
    else if c = 0 then trialFlagsGo my rest true
    else trialFlagsGo my rest t

/-- One trial's counter update: `ties` is incremented when the subject is a
winner and a tie was seen, `wins` when it is a winner with no tie, and
nothing otherwise (a loss is implicit). -/
def trialUpdate (my : HandEval) (opps : List HandEval) (wt : Nat × Nat) :
    Nat × Nat :=
  let ft := trialFlagsGo my opps false
  if ft.1 then
    if ft.2 then (wt.1, wt.2 + 1) else (wt.1 + 1, wt.2)
  else wt

/-- One trial's hand evaluations, given the trial's shuffled remaining deck:
each opponent takes the next two cards, the community cards are completed
from the cards after them, and all hands are evaluated against the final
board. -/
def simTrialEvals (myCards communityCards : List Nat) (opponentCount : Nat)
    (shuffled : List Nat) : HandEval × List HandEval :=
  let finalCommunity :=
    communityCards ++
      (shuffled.drop (2 * opponentCount)).take (5 - communityCards.length)
  let myBest := evaluateHand (myCards ++ finalCommunity)
  let opps := (List.range opponentCount).map (fun j =>
    evaluateHand
      ([shuffled.getD (2 * j) 0, shuffled.getD (2 * j + 1) 0] ++
        finalCommunity))
  (myBest, opps)

/-- The Monte Carlo loop: `sims` trials, each using the permutation that
`shuffles` yields for that trial index (`shuffles i` models the output of
`shuffleArray(remainingDeck)` in trial `i`), folded into the `(wins, ties)`
counters. -/
def runTrials (myCards communityCards : List Nat) (opponentCount : Nat)
    (shuffles : Nat → List Nat) (sims : Nat) : Nat × Nat :=
  (List.range sims).foldl (fun wt i =>
    let evals := simTrialEvals myCards communityCards opponentCount (shuffles i)
    trialUpdate evals.1 evals.2 wt) (0, 0)

/-- Aggregation step of `calculatePokerOdds` (source steps 6 and 7):
`winPercentage = (wins / simulations) * 100`,
`tiePercentage = (ties / simulations) * 100`,
`losePercentage = 100 - winPercentage - tiePercentage`, each then rounded
to two decimals for the result record. -/
def aggregate (wins ties : Nat) (simulations : Int) : SimResult :=
  let winPercentage :=
    jsMul (jsDiv (.num wins) (.num simulations)) (.num 100)
  let tiePercentage :=
    jsMul (jsDiv (.num ties) (.num simulations)) (.num 100)
  let losePercentage := jsSub (jsSub (.num 100) winPercentage) tiePercentage
  { win := round2 winPercentage
    tie := round2 tiePercentage
    lose := round2 losePercentage
    simulations := simulations }

/-- Embedding of `calculatePokerOdds`, over already-encoded cards (the
source's `parseCards` preserves list lengths) and parameterized by the
random shuffles.  The three validations, the trial loop, and the
aggregation are translated in source order. -/
def calculatePokerOdds (myCards communityCards : List Nat)
    (opponentCount : Int) (simulations : Int) (shuffles : Nat → List Nat) :
    Except PokerError SimResult :=
  if myCards.length ≠ 2 then .error .holeCardCount
  else if 5 < communityCards.length then .error .communityCardCount
  else if opponentCount < 1 ∨ 8 < opponentCount then .error .opponentCount
  else
    let wt := runTrials myCards communityCards opponentCount.toNat shuffles
      simulations.toNat
    .ok (aggregate wt.1 wt.2 simulations)

/-- Spec-side reading of the wheel clause: the ranks `{A,2,3,4,5}`
(encoded 12,0,1,2,3) are all present. -/
def wheelPresent (ranks : List Nat) : Bool :=
  [12, 0, 1, 2, 3].all (fun r => ranks.contains r)

/-- Spec-side reading of the consecutive clause of the straight test: five
consecutive rank values are all present. -/
def hasFiveConsecutive (ranks : List Nat) : Bool :=
  ranks.any (fun k => (List.range 5).all (fun j => ranks.contains (k + j)))

/-- Spec-side reading of "the five straight-flush ranks are exactly
{10,J,Q,K,A}": some suit holds all five of the cards T,J,Q,K,A, i.e. a royal
five-card straight flush is present among the seven cards. -/
def royalFlushPresent (cards : List Nat) : Bool :=
  (List.range 4).any (fun s =>
    [8, 9, 10, 11, 12].all (fun r => cards.contains (s * 13 + r)))

/-- A five-card straight flush running `k, k+1, k+2, k+3, k+4` in suit `s` is
present among the cards (used to exhibit which straight flush a concrete
hand actually holds). -/
def straightFlushRunAt (cards : List Nat) (s k : Nat) : Bool :=
  (List.range 5).all (fun j => cards.contains (s * 13 + k + j))

/-- The condition the source's royal-flush branch actually tests: all five
ranks T,J,Q,K,A occur among the seven cards, in any suits. -/
def royalRanksAmongAll (cards : List Nat) : Bool :=
  [8, 9, 10, 11, 12].all (fun r => (cards.map getRank).contains r)

/-- Spec-side category assignment of §4.4 of the spec: the strict
first-match precedence chain.  The straight-flush tier is reported as
`STRAIGHT_FLUSH` (the royal distinction inside that tier is a separate
claim), and the four-of-a-kind test is worded as the spec words it: some
rank has multiplicity 4. -/
def specCategory (cards : List Nat) : Nat :=
  let sc := sortedCounts cards
  if isFlush cards && isStraight (cards.map getRank) then STRAIGHT_FLUSH
  else if (List.range 13).any (fun r => countRank cards r == 4) then
    FOUR_OF_A_KIND
  else if sc.get? 0 == some 3 && sc.get? 1 == some 2 then FULL_HOUSE
  else if isFlush cards then FLUSH
  else if isStraight (cards.map getRank) then STRAIGHT
  else if sc.get? 0 == some 3 then THREE_OF_A_KIND
  else if sc.get? 0 == some 2 && sc.get? 1 == some 2 then TWO_PAIR
  else if sc.get? 0 == some 2 then ONE_PAIR
  else HIGH_CARD

/-- Element-wise comparison over the common prefix of the two tie-break
keys (what the source's key loop actually decides on: positions past the
end of either key never produce a verdict). -/
def zipCompare : List (Nat × Nat) → Int
  | [] => 0
  | p :: rest =>
    if p.2 < p.1 then 1
    else if p.1 < p.2 then -1
    else zipCompare rest

/-- Comparison as one would word it from the source's observable behavior:
category first, then the first differing position within the common prefix
of the keys, `0` when the common prefix carries no difference. -/
def specCompare (hand1 hand2 : HandEval) : Int :=
  if hand2.rank < hand1.rank then 1
  else if hand1.rank < hand2.rank then -1
  else zipCompare (hand1.keyRanks.zip hand2.keyRanks)

/-- Cards known to the C6 scenario: hole cards 2s 2d and the full board
3c 5h 7d 9s Jh. -/
def c6Known : List Nat := [0, 26, 40, 16, 31, 7, 22]

/-- A permutation of the deck remaining after `c6Known`, put into the order
"the two given cards first, the rest in ascending order".  Used as the value
a trial's shuffle came out as. -/
def frontPair (known : List Nat) (a b : Nat) : List Nat :=
  a :: b ::
    (List.range 52).filter (fun c =>
      !known.contains c && c != a && c != b)

/-- Shuffle outcomes for the three-trial C6 scenario: trial 0 deals the
opponent Qc 8c (subject wins), trial 1 deals 2c 2h (tie), trial 2 deals
Ac Ad (subject loses). -/
def c6Shuffles (i : Nat) : List Nat :=
  if i = 0 then frontPair c6Known 49 45
  else if i = 1 then frontPair c6Known 39 13
  else frontPair c6Known 51 38

/-- The list `[k, k+1, ..., k+n-1]` of `n` consecutive naturals, used to
describe a window of consecutive ranks inside the sorted distinct-rank
list. -/
def natRun (k : Nat) : Nat → List Nat
  | 0 => []
  | n + 1 => k :: natRun (k + 1) n

theorem lookup_mem_values {l : List (Char × Nat)} {c : Char} {v : Nat}
    (h : l.lookup c = some v) : v ∈ l.map Prod.snd := by
  induction l with
  | nil => simp [List.lookup] at h
  | cons p t ih =>
    cases hb : c == p.1 with
    | false =>
      simp only [List.lookup, hb] at h
      exact List.mem_cons_of_mem _ (ih h)
    | true =>
      simp only [List.lookup, hb] at h
      injection h with h2
      rw [← h2]
      simp

theorem compareKeys_nil_right (k : List Nat) : compareKeys k [] = 0 := by
  induction k with
  | nil => rfl
  | cons a k ih => simpa [compareKeys] using ih

theorem compareKeys_eq_zipCompare (k1 k2 : List Nat) :
    compareKeys k1 k2 = zipCompare (k1.zip k2) := by
  induction k1 generalizing k2 with
  | nil => simp [compareKeys, zipCompare]
  | cons a k1 ih =>
    cases k2 with
    | nil => simpa [compareKeys, zipCompare] using compareKeys_nil_right k1
    | cons b k2 => simp [compareKeys, zipCompare, List.zip, ih]

theorem zipCompare_eq_zero_iff (ps : List (Nat × Nat)) :
    zipCompare ps = 0 ↔ ∀ p ∈ ps, p.1 = p.2 := by
  induction ps with
  | nil => simp [zipCompare]
  | cons p ps ih =>
    by_cases h1 : p.2 < p.1
    · simp only [zipCompare, if_pos h1]
      constructor
      · intro h; exact absurd h (by decide)
      · intro h; exact absurd (h p (by simp)) (by omega)
    · by_cases h2 : p.1 < p.2
      · simp only [zipCompare, if_neg h1, if_pos h2]
        constructor
        · intro h; exact absurd h (by decide)
        · intro h; exact absurd (h p (by simp)) (by omega)
      · have hpe : p.1 = p.2 := by omega
        simp [zipCompare, h1, h2, ih, hpe]

theorem trialFlagsGo_fst (my : HandEval) (opps : List HandEval) (t : Bool) :
    (trialFlagsGo my opps t).1 = true ↔
      ∀ opp ∈ opps, 0 ≤ compareHands my opp := by
  induction opps generalizing t with
  | nil => simp [trialFlagsGo]
  | cons opp rest ih =>
    by_cases hlt : compareHands my opp < 0
    · simp only [trialFlagsGo, if_pos hlt]
      constructor
      · intro hz; simp at hz
      · intro hall; exact absurd (hall opp (by simp)) (by omega)
    · have h0 : 0 ≤ compareHands my opp := by omega
      by_cases heq : compareHands my opp = 0
      · simp only [trialFlagsGo, if_neg hlt, if_pos heq]
        rw [ih]
        simp [List.forall_mem_cons, h0]
      · simp only [trialFlagsGo, if_neg hlt, if_neg heq]
        rw [ih]
        simp [List.forall_mem_cons, h0]

theorem trialFlagsGo_snd (my : HandEval) (opps : List HandEval) (t : Bool)
    (h : ∀ opp ∈ opps, 0 ≤ compareHands my opp) :
    (trialFlagsGo my opps t).2 =
      (t || opps.any (fun opp => compareHands my opp == 0)) := by
  induction opps generalizing t with
  | nil => simp [trialFlagsGo]
  | cons opp rest ih =>
    have h0 : 0 ≤ compareHands my opp := h opp (by simp)
    have hrest : ∀ o ∈ rest, 0 ≤ compareHands my o := fun o ho =>
      h o (by simp [ho])
    have hlt : ¬compareHands my opp < 0 := by omega
    by_cases heq : compareHands my opp = 0
    · simp [trialFlagsGo, hlt, heq, ih _ hrest]
    · have hbeq : (compareHands my opp == 0) = false := by
        simpa using heq
      simp [trialFlagsGo, hlt, heq, ih _ hrest, hbeq]

/-- C2: in every trial, the subject is counted a winner (`wins` or `ties`
incremented) iff its evaluation is greater than or equal to every opponent's
evaluation; among winning trials, it is a tie iff some opponent's evaluation
equals the subject's, and a strict win otherwise; the early exit on the
first strict loss never skips the tie detection in a trial with no loss. -/
theorem trial_outcome_characterization (my : HandEval) (opps : List HandEval)
    (wins ties : Nat) :
    trialUpdate my opps (wins, ties) =
      if ∀ opp ∈ opps, 0 ≤ compareHands my opp then
        if ∃ opp ∈ opps, compareHands my opp = 0 then (wins, ties + 1)
        else (wins + 1, ties)
      else (wins, ties) := by
  simp only [trialUpdate]
  by_cases hall : ∀ opp ∈ opps, 0 ≤ compareHands my opp
  · have h1 : (trialFlagsGo my opps false).1 = true :=
      (trialFlagsGo_fst my opps false).mpr hall
    have h2 : (trialFlagsGo my opps false).2 =
        opps.any (fun opp => compareHands my opp == 0) := by
      simpa using trialFlagsGo_snd my opps false hall
    rw [if_pos hall, h1, h2]
    by_cases hex : ∃ opp ∈ opps, compareHands my opp = 0
    · have : opps.any (fun opp => compareHands my opp == 0) = true := by
        simpa [List.any_eq_true] using hex
      simp [this, hex]
    · have : opps.any (fun opp => compareHands my opp == 0) = false := by
        simp only [List.any_eq_true, beq_iff_eq] at *
        simpa using hex
      simp [this, hex]
  · have h1 : (trialFlagsGo my opps false).1 = false := by
      have := trialFlagsGo_fst my opps false
      simp [hall] at this
      simpa using this
    rw [if_neg hall, h1]
    simp

/-- C5 counterexample: two evaluations of the same category whose tie-break
keys are different lists (of different lengths) on which `compareHands`
nevertheless returns EQUAL, because the loop never reaches the surplus
element of the longer key.  (The hands are Qs Qh Js Jh Ts Th 5s, three
pairs, and Qd Qc Jd Jc Td 5h 2h, two pairs.) -/
theorem compare_equal_unequal_keys_cex :
    compareHands (evaluateHand [10, 23, 9, 22, 8, 21, 3])
        (evaluateHand [36, 49, 35, 48, 34, 16, 13]) = 0 ∧
      (evaluateHand [10, 23, 9, 22, 8, 21, 3]).rank =
        (evaluateHand [36, 49, 35, 48, 34, 16, 13]).rank ∧
      (evaluateHand [10, 23, 9, 22, 8, 21, 3]).keyRanks ≠
        (evaluateHand [36, 49, 35, 48, 34, 16, 13]).keyRanks := by
  decide

/-- C5 amended: `compareHands` compares the categories first, and on equal
category compares the tie-break keys element-wise over the positions present
in BOTH keys, returning at the first differing such position; it returns
EQUAL iff the categories agree and the common prefix of the keys carries no
difference — surplus positions of a longer key are never compared (not: only
when both keys are exhausted). -/
theorem compareHands_common_prefix (hand1 hand2 : HandEval) :
    compareHands hand1 hand2 = specCompare hand1 hand2 ∧
      (compareHands hand1 hand2 = 0 ↔
        hand1.rank = hand2.rank ∧
          ∀ p ∈ hand1.keyRanks.zip hand2.keyRanks, p.1 = p.2) := by
  constructor
  · unfold compareHands specCompare
    by_cases h1 : hand2.rank < hand1.rank
    · simp [h1]
    · by_cases h2 : hand1.rank < hand2.rank
      · simp [h1, h2]
      · simp [h1, h2, compareKeys_eq_zipCompare]
  · unfold compareHands
    by_cases h1 : hand2.rank < hand1.rank
    · simp [h1]
      omega
    · by_cases h2 : hand1.rank < hand2.rank
      · simp [h1, h2]
        omega
      · have hr : hand1.rank = hand2.rank := by omega
        simp [h1, h2, hr, compareKeys_eq_zipCompare, zipCompare_eq_zero_iff]

/-- C7 counterexample: for an unrecognized rank character the parser does
not fail with any error — it returns the `NaN` card value (modelled `none`),
which then propagates silently. -/
theorem parseCard_invalid_cex : parseCard 'X' 's' = none := by decide

/-- C7 amended: `parseCard` raises no error at all.  For a recognized
rank/suit pair it returns `suit * 13 + rank`, an integer in [0,52); for an
unrecognized rank or suit character it returns the JavaScript `NaN` value
(modelled `none`) instead of failing, and no `InvalidCardError` exists in
the code. -/
theorem parseCard_amended (rankStr suitStr : Char) :
    (∀ rank suit, RANK_MAP rankStr = some rank → SUIT_MAP suitStr = some suit →
      parseCard rankStr suitStr = some (suit * 13 + rank) ∧
        suit * 13 + rank < 52) ∧
      (RANK_MAP rankStr = none ∨ SUIT_MAP suitStr = none →
        parseCard rankStr suitStr = none) := by
  constructor
  · intro rank suit hr hs
    have hrank : rank ≤ 12 := by
      have := lookup_mem_values hr
      simp [RANK_ENTRIES] at this
      omega
    have hsuit : suit ≤ 3 := by
      have := lookup_mem_values hs
      simp [SUIT_ENTRIES] at this
      omega
    refine ⟨by simp [parseCard, hr, hs], by omega⟩
  · intro h
    rcases h with h | h
    · simp [parseCard, h]
    · rcases hr : RANK_MAP rankStr with _ | r
      · simp [parseCard, hr]
      · simp [parseCard, hr, h]

/-- C7 witness: the recognized pair As parses to card 12 = 0*13+12 < 52. -/
theorem parseCard_amended_witness :
    parseCard 'A' 's' = some (0 * 13 + 12) ∧ 0 * 13 + 12 < 52 :=
  (parseCard_amended 'A' 's').1 12 0 (by decide) (by decide)

/-- C8 counterexample: a six-card input is evaluated without any error —
`evaluateHand` has no size check at all and simply returns a
`HandEvaluation` (here for the cards 2s 3s 4s 5s 6s 7s). -/
theorem evaluateHand_six_cards_cex :
    evaluateHand [0, 1, 2, 3, 4, 5] =
        { rank := STRAIGHT_FLUSH, keyRanks := [5, 4, 3, 2, 1, 0] } ∧
      [0, 1, 2, 3, 4, 5].length ≠ 7 := by
  decide

/-- C8 amended: `evaluateHand` performs no input-size validation and
produces a `HandEvaluation` (with a category inside the ten-member
enumeration) for every input list, whatever its length; no
`InvalidHandSizeError` exists anywhere in the code. -/
theorem evaluateHand_total (cards : List Nat) :
    (evaluateHand cards).rank ≤ ROYAL_FLUSH := by
  simp only [evaluateHand]
  split_ifs <;>
    simp [HIGH_CARD, ONE_PAIR, TWO_PAIR, THREE_OF_A_KIND, STRAIGHT, FLUSH,
      FULL_HOUSE, FOUR_OF_A_KIND, STRAIGHT_FLUSH, ROYAL_FLUSH]

/-- C1 counterexample: the hand 9s Ts Js Qs Ks Ah 2d is a flush and a
straight, its unique five-card straight flush runs 9..K (so the straight-
flush ranks are NOT {10,J,Q,K,A}, and no royal straight flush is present),
yet `evaluateHand` classifies it as RoyalFlush because all five ranks
T,J,Q,K,A merely occur somewhere among the seven cards. -/
theorem royal_misclassification_cex :
    [7, 8, 9, 10, 11, 25, 26].length = 7 ∧
      isFlush [7, 8, 9, 10, 11, 25, 26] = true ∧
      isStraight ([7, 8, 9, 10, 11, 25, 26].map getRank) = true ∧
      straightFlushRunAt [7, 8, 9, 10, 11, 25, 26] 0 7 = true ∧
      royalFlushPresent [7, 8, 9, 10, 11, 25, 26] = false ∧
      (evaluateHand [7, 8, 9, 10, 11, 25, 26]).rank = ROYAL_FLUSH := by
  decide

/-- C1 amended: for a 7-card input that is both a flush and a straight,
`evaluateHand` classifies it as RoyalFlush exactly when all five ranks
T,J,Q,K,A occur among the seven cards (in any suits, not necessarily the
ranks of a straight flush), and as StraightFlush otherwise. -/
theorem royal_vs_straight_flush_amended (cards : List Nat)
    (_hlen : cards.length = 7) (hf : isFlush cards = true)
    (hs : isStraight (cards.map getRank) = true) :
    ((evaluateHand cards).rank = ROYAL_FLUSH ↔
        royalRanksAmongAll cards = true) ∧
      ((evaluateHand cards).rank = STRAIGHT_FLUSH ↔
        royalRanksAmongAll cards = false) := by
  have hcond : (isFlush cards && isStraight (cards.map getRank)) = true := by
    simp [hf, hs]
  have hroyal : royalRanksAmongAll cards =
      royalCondition (cards.map getRank) := by
    apply Bool.eq_iff_iff.mpr
    simp [royalRanksAmongAll, royalCondition]
    tauto
  cases hb : royalCondition (cards.map getRank) with
  | true =>
    have hro : royalRanksAmongAll cards = true := by rw [hroyal]; exact hb
    simp [evaluateHand, hcond, hb, hro, ROYAL_FLUSH, STRAIGHT_FLUSH]
  | false =>
    have hro : royalRanksAmongAll cards = false := by rw [hroyal]; exact hb
    simp [evaluateHand, hcond, hb, hro, ROYAL_FLUSH, STRAIGHT_FLUSH]

/-- C1 witness: the royal hand As Ks Qs Js Ts 2h 2d satisfies the
hypotheses and is classified RoyalFlush. -/
theorem royal_vs_straight_flush_witness :
    [12, 11, 10, 9, 8, 13, 26].length = 7 ∧
      isFlush [12, 11, 10, 9, 8, 13, 26] = true ∧
      isStraight ([12, 11, 10, 9, 8, 13, 26].map getRank) = true ∧
      (evaluateHand [12, 11, 10, 9, 8, 13, 26]).rank = ROYAL_FLUSH :=
  ⟨by decide, by decide, by decide,
    (royal_vs_straight_flush_amended [12, 11, 10, 9, 8, 13, 26] (by decide)
        (by decide) (by decide)).1.mpr (by decide)⟩

theorem round2_eq (q : ℚ) (z : ℤ) (h1 : (z : ℚ) ≤ q * 100 + 1 / 2)
    (h2 : q * 100 + 1 / 2 < z + 1) :
    round2 (.num q) = .num ((z : ℚ) / 100) := by
  simp only [round2]
  rw [Int.floor_eq_iff.mpr ⟨h1, h2⟩]

theorem round2_zero : round2 (.num 0) = .num 0 := by
  rw [round2_eq 0 0 (by norm_num) (by norm_num)]
  norm_num

theorem round2_hundred : round2 (.num 100) = .num 100 := by
  rw [round2_eq 100 10000 (by norm_num) (by norm_num)]
  norm_num

theorem aggregate_of_ne_zero (wins ties : Nat) (simulations : Int)
    (h : simulations ≠ 0) :
    aggregate wins ties simulations =
      { win := round2 (.num ((wins : ℚ) / (simulations : ℚ) * 100))
        tie := round2 (.num ((ties : ℚ) / (simulations : ℚ) * 100))
        lose := round2 (.num (100 - (wins : ℚ) / (simulations : ℚ) * 100 -
          (ties : ℚ) / (simulations : ℚ) * 100))
        simulations := simulations } := by
  have hq : ((simulations : ℚ)) ≠ 0 := Int.cast_ne_zero.mpr h
  simp [aggregate, jsDiv, jsMul, jsSub, hq]

theorem aggregate_zero_trials (simulations : Int) (h : simulations = 0) :
    aggregate 0 0 simulations =
      { win := .nan, tie := .nan, lose := .nan, simulations := 0 } := by
  subst h
  simp [aggregate, jsDiv, jsMul, jsSub, round2]

/-- C10 counterexample: with a negative trial count the loop body never
executes and nothing is raised, but the returned fields are NOT NaN — the
divisions are 0/(-1), which is 0, so the result is win 0, tie 0, lose 100
(the claim asserts NaN for every non-positive trial count). -/
theorem negative_simulations_cex :
    calculatePokerOdds [0, 26] [] 1 (-1) c6Shuffles =
        .ok { win := .num 0, tie := .num 0, lose := .num 100,
              simulations := -1 } ∧
      JSNum.num 0 ≠ JSNum.nan ∧ JSNum.num 100 ≠ JSNum.nan := by
  refine ⟨?_, by decide, by decide⟩
  have hrt : runTrials [0, 26] [] (Int.toNat 1) c6Shuffles
      (Int.toNat (-1)) = (0, 0) := by decide
  simp only [calculatePokerOdds]
  rw [if_neg (by decide : ¬([0, 26] : List Nat).length ≠ 2),
    if_neg (by decide : ¬5 < ([] : List Nat).length),
    if_neg (by decide : ¬((1 : Int) < 1 ∨ 8 < (1 : Int))), hrt,
    aggregate_of_ne_zero 0 0 (-1) (by norm_num)]
  rw [show ((0 : Nat) : ℚ) / ((-1 : Int) : ℚ) * 100 = 0 by norm_num,
    show (100 : ℚ) - 0 - 0 = 100 by norm_num, round2_zero, round2_hundred]

/-- C10 amended: `calculatePokerOdds` performs no validation of the
`simulations` parameter and never raises on it; for any non-positive value
the trial loop body never executes.  For `simulations = 0` the three
percentage fields are NaN (0/0 is unguarded), while for negative values the
divisions are 0/negative = 0 and the result is win 0, tie 0, lose 100. -/
theorem nonpositive_simulations_amended (myCards communityCards : List Nat)
    (opponentCount : Int) (shuffles : Nat → List Nat) (simulations : Int)
    (h2 : myCards.length = 2) (h5 : communityCards.length ≤ 5)
    (ho1 : 1 ≤ opponentCount) (ho8 : opponentCount ≤ 8)
    (hsim : simulations ≤ 0) :
    calculatePokerOdds myCards communityCards opponentCount simulations
        shuffles =
      .ok { win := if simulations = 0 then .nan else .num 0,
            tie := if simulations = 0 then .nan else .num 0,
            lose := if simulations = 0 then .nan else .num 100,
            simulations := simulations } := by
  have ht : simulations.toNat = 0 := Int.toNat_of_nonpos hsim
  have hrt : runTrials myCards communityCards opponentCount.toNat shuffles
      simulations.toNat = (0, 0) := by
    rw [ht]; rfl
  simp only [calculatePokerOdds]
  rw [if_neg (by omega : ¬myCards.length ≠ 2),
    if_neg (by omega : ¬5 < communityCards.length),
    if_neg (by omega : ¬(opponentCount < 1 ∨ 8 < opponentCount)), hrt]
  dsimp only
  by_cases hz : simulations = 0
  · subst hz
    rw [aggregate_zero_trials 0 rfl]
    simp
  · rw [aggregate_of_ne_zero 0 0 simulations hz,
      show ((0 : Nat) : ℚ) = 0 from by norm_num,
      show (0 : ℚ) / (simulations : ℚ) * 100 = 0 from by ring,
      show (100 : ℚ) - 0 - 0 = 100 from by norm_num,
      round2_zero, round2_hundred]
    simp [hz]

/-- C10 witness: at `simulations = 0` (with valid other inputs) the result
record is NaN/NaN/NaN. -/
theorem nonpositive_simulations_witness :
    calculatePokerOdds [0, 26] [] 1 0 c6Shuffles =
      .ok { win := .nan, tie := .nan, lose := .nan, simulations := 0 } := by
  have h := nonpositive_simulations_amended [0, 26] [] 1 c6Shuffles 0
    (by decide) (by decide) (by decide) (by decide) (by decide)
  simpa using h

/-- C9: any violation of the hole-card count, community-card count, or
opponent-count constraints makes `calculatePokerOdds` fail with one of the
validation errors, and the outcome is entirely independent of the random
shuffles — no sampling influences it and no counters are produced. -/
theorem validation_before_sampling (myCards communityCards : List Nat)
    (opponentCount simulations : Int) (sh1 sh2 : Nat → List Nat)
    (h : myCards.length ≠ 2 ∨ 5 < communityCards.length ∨
      opponentCount < 1 ∨ 8 < opponentCount) :
    (∃ e, calculatePokerOdds myCards communityCards opponentCount simulations
        sh1 = .error e) ∧
      calculatePokerOdds myCards communityCards opponentCount simulations
          sh1 =
        calculatePokerOdds myCards communityCards opponentCount simulations
          sh2 := by
  simp only [calculatePokerOdds]
  by_cases hA : myCards.length ≠ 2
  · simp [hA]
  · by_cases hB : 5 < communityCards.length
    · simp [hA, hB]
    · have hC : opponentCount < 1 ∨ 8 < opponentCount := by
        rcases h with h | h | h | h
        · exact absurd h hA
        · exact absurd h hB
        · exact Or.inl h
        · exact Or.inr h
      simp [hA, hB, hC]

/-- C9 witness: `opponentCount = 9` trips the validation; the call errors
and two different shuffle sources give the identical outcome. -/
theorem validation_before_sampling_witness :
    (([0, 26] : List Nat).length ≠ 2 ∨ 5 < ([] : List Nat).length ∨
        (9 : Int) < 1 ∨ (8 : Int) < 9) ∧
      ((∃ e, calculatePokerOdds [0, 26] [] 9 5 c6Shuffles = .error e) ∧
        calculatePokerOdds [0, 26] [] 9 5 c6Shuffles =
          calculatePokerOdds [0, 26] [] 9 5 (fun _ => [])) :=
  ⟨Or.inr (Or.inr (Or.inr (by decide))),
    validation_before_sampling [0, 26] [] 9 5 c6Shuffles (fun _ => [])
      (Or.inr (Or.inr (Or.inr (by decide))))⟩

/-- C6 amended: for a positive trial count the reported fields are
`win = round2(100*wins/trials)`, `tie = round2(100*ties/trials)`, and
`lose` is derived as `round2(100 - 100*wins/trials - 100*ties/trials)` from
the unrounded values rather than independently counted; however all three
reported values are rounded independently, so they need not sum exactly to
100 (see the counterexample, where they sum to 99.99). -/
theorem percentages_formula (myCards communityCards : List Nat)
    (opponentCount simulations : Int) (shuffles : Nat → List Nat)
    (res : SimResult) (hpos : 0 < simulations)
    (hok : calculatePokerOdds myCards communityCards opponentCount
      simulations shuffles = .ok res) :
    res.win = round2 (.num (100 *
      ((runTrials myCards communityCards opponentCount.toNat shuffles
        simulations.toNat).1 : ℚ) / (simulations : ℚ))) ∧
      res.tie = round2 (.num (100 *
        ((runTrials myCards communityCards opponentCount.toNat shuffles
          simulations.toNat).2 : ℚ) / (simulations : ℚ))) ∧
      res.lose = round2 (.num (100 -
        100 * ((runTrials myCards communityCards opponentCount.toNat shuffles
          simulations.toNat).1 : ℚ) / (simulations : ℚ) -
        100 * ((runTrials myCards communityCards opponentCount.toNat shuffles
          simulations.toNat).2 : ℚ) / (simulations : ℚ))) ∧
      res.simulations = simulations := by
  have hz : simulations ≠ 0 := by omega
  simp only [calculatePokerOdds] at hok
  split_ifs at hok
  injection hok with h
  rw [← h, aggregate_of_ne_zero _ _ _ hz]
  refine ⟨?_, ?_, ?_, rfl⟩ <;> ring_nf

/-- C6 witness: a one-trial run the subject wins; the reported record is
100/0/0 and matches the formulas. -/
theorem percentages_formula_witness :
    (0 : Int) < 1 ∧
      ({ win := .num 100, tie := .num 0, lose := .num 0,
          simulations := 1 } : SimResult).win =
        round2 (.num (100 *
          ((runTrials [0, 26] [40, 16, 31, 7, 22] (Int.toNat 1) c6Shuffles
            (Int.toNat 1)).1 : ℚ) / ((1 : Int) : ℚ))) := by
  have hrt : runTrials [0, 26] [40, 16, 31, 7, 22] (Int.toNat 1) c6Shuffles
      (Int.toNat 1) = (1, 0) := by decide
  have hok : calculatePokerOdds [0, 26] [40, 16, 31, 7, 22] 1 1 c6Shuffles =
      .ok { win := .num 100, tie := .num 0, lose := .num 0,
            simulations := 1 } := by
    simp only [calculatePokerOdds]
    rw [if_neg (by decide : ¬([0, 26] : List Nat).length ≠ 2),
      if_neg (by decide : ¬5 < ([40, 16, 31, 7, 22] : List Nat).length),
      if_neg (by decide : ¬((1 : Int) < 1 ∨ 8 < (1 : Int))), hrt]
    dsimp only
    rw [aggregate_of_ne_zero 1 0 1 (by norm_num),
      show ((1 : Nat) : ℚ) / ((1 : Int) : ℚ) * 100 = 100 from by norm_num,
      show ((0 : Nat) : ℚ) / ((1 : Int) : ℚ) * 100 = 0 from by norm_num,
      show (100 : ℚ) - 100 - 0 = 0 from by norm_num,
      round2_hundred, round2_zero]
  exact ⟨by norm_num,
    (percentages_formula [0, 26] [40, 16, 31, 7, 22] 1 1 c6Shuffles _
      (by norm_num) hok).1⟩

/-- C6 counterexample: a three-trial run with one win, one tie and one loss
reports 33.33/33.33/33.33 — the three reported (rounded) values sum to
99.99, not exactly 100. -/
theorem percentages_sum_cex :
    calculatePokerOdds [0, 26] [40, 16, 31, 7, 22] 1 3 c6Shuffles =
        .ok { win := .num (3333 / 100), tie := .num (3333 / 100),
              lose := .num (3333 / 100), simulations := 3 } ∧
      (3333 / 100 + 3333 / 100 + 3333 / 100 : ℚ) ≠ 100 := by
  constructor
  · have hrt : runTrials [0, 26] [40, 16, 31, 7, 22] (Int.toNat 1) c6Shuffles
        (Int.toNat 3) = (1, 1) := by decide
    simp only [calculatePokerOdds]
    rw [if_neg (by decide : ¬([0, 26] : List Nat).length ≠ 2),
      if_neg (by decide : ¬5 < ([40, 16, 31, 7, 22] : List Nat).length),
      if_neg (by decide : ¬((1 : Int) < 1 ∨ 8 < (1 : Int))), hrt]
    dsimp only
    rw [aggregate_of_ne_zero 1 1 3 (by norm_num),
      show ((1 : Nat) : ℚ) / ((3 : Int) : ℚ) * 100 = 100 / 3 from by norm_num,
      show (100 : ℚ) - 100 / 3 - 100 / 3 = 100 / 3 from by norm_num,
      show round2 (JSNum.num (100 / 3)) = JSNum.num ((3333 : ℤ) / 100) from
        round2_eq _ 3333 (by norm_num) (by norm_num)]
    norm_num
  · norm_num

theorem getRank_lt (card : Nat) : getRank card < 13 :=
  Nat.mod_lt _ (by norm_num)

theorem countRank_pos_iff (cards : List Nat) (r : Nat) :
    0 < countRank cards r ↔ ∃ c ∈ cards, getRank c = r := by
  simp [countRank, List.length_pos_iff_exists_mem, List.mem_filter]

theorem mem_distinctRanks (cards : List Nat) (r : Nat) :
    r ∈ distinctRanks cards ↔ 0 < countRank cards r := by
  rw [countRank_pos_iff]
  simp [distinctRanks, List.mem_dedup, List.mem_map]

theorem rank_lt_of_mem_distinctRanks {cards : List Nat} {r : Nat}
    (h : r ∈ distinctRanks cards) : r < 13 := by
  rcases (countRank_pos_iff cards r).mp ((mem_distinctRanks cards r).mp h)
    with ⟨c, _, hc⟩
  rw [← hc]
  exact getRank_lt c

theorem mem_sortedCounts (cards : List Nat) (m : Nat) :
    m ∈ sortedCounts cards ↔
      ∃ r ∈ distinctRanks cards, countRank cards r = m := by
  simp [sortedCounts, List.mem_insertionSort, List.mem_map]

theorem sum_countRank (cards : List Nat) :
    Finset.sum (Finset.range 13) (fun r => countRank cards r) =
      cards.length := by
  induction cards with
  | nil => simp [countRank]
  | cons c cs ih =>
    have hstep : ∀ r, countRank (c :: cs) r =
        countRank cs r + (if getRank c = r then 1 else 0) := by
      intro r
      simp only [countRank, List.filter_cons]
      by_cases hb : getRank c = r
      · simp [hb]
      · simp [hb]
    rw [Finset.sum_congr rfl (fun r _ => hstep r), Finset.sum_add_distrib, ih]
    rw [Finset.sum_ite_eq (Finset.range 13) (getRank c) (fun _ => 1)]
    simp [Finset.mem_range, getRank_lt]

theorem countRank_pair_le (cards : List Nat) {ra rb : Nat} (hne : ra ≠ rb)
    (ha : ra < 13) (hb : rb < 13) :
    countRank cards ra + countRank cards rb ≤ cards.length := by
  have hsub : ({ra, rb} : Finset Nat) ⊆ Finset.range 13 := by
    intro x hx
    rcases Finset.mem_insert.mp hx with h | h
    · subst h; exact Finset.mem_range.mpr ha
    · rw [Finset.mem_singleton.mp h]; exact Finset.mem_range.mpr hb
  calc countRank cards ra + countRank cards rb
      = Finset.sum {ra, rb} (fun r => countRank cards r) :=
        (Finset.sum_pair hne).symm
    _ ≤ Finset.sum (Finset.range 13) (fun r => countRank cards r) :=
        Finset.sum_le_sum_of_subset hsub
    _ = cards.length := sum_countRank cards

theorem sortedCounts_sorted (cards : List Nat) :
    (sortedCounts cards).Sorted (fun a b => b ≤ a) :=
  List.sorted_insertionSort _ _

theorem sortedCounts_head_four (cards : List Nat) (hlen : cards.length = 7) :
    (sortedCounts cards).get? 0 = some 4 ↔
      ∃ r, r < 13 ∧ countRank cards r = 4 := by
  constructor
  · intro h
    rcases (mem_sortedCounts cards 4).mp (List.get?_mem h) with ⟨r, hrmem, hrc⟩
    exact ⟨r, rank_lt_of_mem_distinctRanks hrmem, hrc⟩
  · rintro ⟨r, hr13, hr4⟩
    have hrd : r ∈ distinctRanks cards :=
      (mem_distinctRanks cards r).mpr (by omega)
    have hmem : 4 ∈ sortedCounts cards :=
      (mem_sortedCounts cards 4).mpr ⟨r, hrd, hr4⟩
    cases hsc : sortedCounts cards with
    | nil => rw [hsc] at hmem; simp at hmem
    | cons m t =>
      have hsorted := sortedCounts_sorted cards
      rw [hsc] at hsorted hmem
      have h4le : 4 ≤ m := by
        rcases List.mem_cons.mp hmem with h | h
        · omega
        · exact (List.sorted_cons.mp hsorted).1 4 h
      have hm : m ∈ sortedCounts cards := by rw [hsc]; simp
      rcases (mem_sortedCounts cards m).mp hm with ⟨rm, hrmmem, hrmc⟩
      by_cases hm4 : m = 4
      · simp [hm4]
      · have hne : r ≠ rm := by
          intro he
          rw [← he] at hrmc
          omega
        have hpair := countRank_pair_le cards hne hr13
          (rank_lt_of_mem_distinctRanks hrmmem)
        omega

/-- C3: on 7-card inputs `evaluateHand` assigns the category by the strict
first-match precedence chain of the spec, with the four-of-a-kind test
worded as "some rank has multiplicity 4" (`specCategory`).  The straight-
flush tier (ranks 8 and 9) is compared as the single first tier via
`min · STRAIGHT_FLUSH`; the second conjunct states that the evaluator lands
in that tier exactly when `specCategory` selects it. -/
theorem evaluateHand_precedence (cards : List Nat)
    (hlen : cards.length = 7) :
    min (evaluateHand cards).rank STRAIGHT_FLUSH = specCategory cards ∧
      (STRAIGHT_FLUSH ≤ (evaluateHand cards).rank ↔
        specCategory cards = STRAIGHT_FLUSH) := by
  have hfour : ((sortedCounts cards).get? 0 == some 4) =
      ((List.range 13).any fun r => countRank cards r == 4) := by
    apply Bool.eq_iff_iff.mpr
    rw [beq_iff_eq, List.any_eq_true]
    simp only [List.mem_range, beq_iff_eq]
    rw [sortedCounts_head_four cards hlen]
  simp only [evaluateHand, specCategory]
  rw [← hfour]
  cases hfs : (isFlush cards && isStraight (cards.map getRank)) with
  | true =>
    cases hroy : royalCondition (cards.map getRank) <;>
      simp [hfs, hroy, STRAIGHT_FLUSH, ROYAL_FLUSH]
  | false =>
    cases h4 : ((sortedCounts cards).get? 0 == some 4) with
    | true =>
      simp [hfs, h4, FOUR_OF_A_KIND, STRAIGHT_FLUSH]
    | false =>
      cases h32 : ((sortedCounts cards).get? 0 == some 3 &&
          (sortedCounts cards).get? 1 == some 2) <;>
        cases hf : isFlush cards <;>
        cases hs : isStraight (cards.map getRank) <;>
        cases h3 : ((sortedCounts cards).get? 0 == some 3) <;>
        cases h22 : ((sortedCounts cards).get? 0 == some 2 &&
          (sortedCounts cards).get? 1 == some 2) <;>
        cases h2 : ((sortedCounts cards).get? 0 == some 2) <;>
        simp_all [HIGH_CARD, ONE_PAIR, TWO_PAIR, THREE_OF_A_KIND, STRAIGHT,
          FLUSH, FULL_HOUSE, FOUR_OF_A_KIND, STRAIGHT_FLUSH, ROYAL_FLUSH]

/-- C3 witness: the four-of-a-kind hand 2s 2h 2d 2c 5h 6d 7c satisfies the
7-card hypothesis and both conjuncts of the precedence theorem. -/
theorem evaluateHand_precedence_witness :
    ([0, 13, 26, 39, 16, 30, 44] : List Nat).length = 7 ∧
      (min (evaluateHand [0, 13, 26, 39, 16, 30, 44]).rank STRAIGHT_FLUSH =
          specCategory [0, 13, 26, 39, 16, 30, 44] ∧
        (STRAIGHT_FLUSH ≤ (evaluateHand [0, 13, 26, 39, 16, 30, 44]).rank ↔
          specCategory [0, 13, 26, 39, 16, 30, 44] = STRAIGHT_FLUSH)) :=
  ⟨by decide, evaluateHand_precedence [0, 13, 26, 39, 16, 30, 44] (by decide)⟩

theorem natRun_length (k n : Nat) : (natRun k n).length = n := by
  induction n generalizing k with
  | zero => rfl
  | succ n ih => simp [natRun, ih]

theorem natRun_getD : ∀ (n j k d : Nat), j < n →
    (natRun k n).getD j d = k + j := by
  intro n
  induction n with
  | zero => intro j k d hj; omega
  | succ n ih =>
    intro j k d hj
    cases j with
    | zero => simp [natRun]
    | succ j =>
      have := ih j (k + 1) d (by omega)
      simp only [natRun, List.getD_cons_succ]
      omega

theorem sorted_run_of_head : ∀ (n : Nat) (u : List Nat) (k : Nat),
    u.Sorted (· < ·) → u.head? = some k → (∀ j, j < n → (k + j) ∈ u) →
    ∃ s, u = natRun k n ++ s := by
  intro n
  induction n with
  | zero => intro u k _ _ _; exact ⟨u, by simp [natRun]⟩
  | succ n ih =>
    intro u k hsort hhead hmem
    cases u with
    | nil => simp at hhead
    | cons a t =>
      have ha : a = k := by simpa using hhead
      subst ha
      cases n with
      | zero => exact ⟨t, by simp [natRun]⟩
      | succ m =>
        have h1 : (a + 1) ∈ a :: t := hmem 1 (by omega)
        have h1t : (a + 1) ∈ t := by
          rcases List.mem_cons.mp h1 with h | h
          · omega
          · exact h
        cases t with
        | nil => simp at h1t
        | cons b t' =>
          have hbt : ∀ x ∈ b :: t', a < x := (List.sorted_cons.mp hsort).1
          have hsort2 : (b :: t').Sorted (· < ·) := (List.sorted_cons.mp hsort).2
          have hbmin : ∀ x ∈ t', b < x := (List.sorted_cons.mp hsort2).1
          have hb : b = a + 1 := by
            rcases List.mem_cons.mp h1t with h | h
            · omega
            · have h2 := hbmin _ h
              have h3 := hbt b (by simp)
              omega
          subst hb
          have hmem2 : ∀ j, j < m + 1 → ((a + 1) + j) ∈ (a + 1) :: t' := by
            intro j hj
            have hcur := hmem (j + 1) (by omega)
            rcases List.mem_cons.mp hcur with h | h
            · omega
            · rw [show (a + 1) + j = a + (j + 1) from by omega]
              exact h
          rcases ih ((a + 1) :: t') (a + 1) hsort2 (by simp) hmem2 with ⟨s, hs⟩
          exact ⟨s, by simp [natRun, hs]⟩

theorem run_infix_of_mem (u : List Nat) (k : Nat) (hsort : u.Sorted (· < ·))
    (hmem : ∀ j, j < 5 → (k + j) ∈ u) :
    ∃ p s, u = p ++ natRun k 5 ++ s := by
  induction u with
  | nil =>
    have := hmem 0 (by omega)
    simp at this
  | cons a t ih =>
    have hsort2 : t.Sorted (· < ·) := (List.sorted_cons.mp hsort).2
    have hat : ∀ x ∈ t, a < x := (List.sorted_cons.mp hsort).1
    rcases Nat.lt_trichotomy a k with hlt | heq | hgt
    · have hmem2 : ∀ j, j < 5 → (k + j) ∈ t := by
        intro j hj
        rcases List.mem_cons.mp (hmem j hj) with h | h
        · omega
        · exact h
      rcases ih hsort2 hmem2 with ⟨p, s, hps⟩
      exact ⟨a :: p, s, by simp [hps]⟩
    · subst heq
      rcases sorted_run_of_head 5 (a :: t) a hsort (by simp) hmem with ⟨s, hs⟩
      exact ⟨[], s, by simpa using hs⟩
    · exfalso
      have h0 := hmem 0 (by omega)
      rcases List.mem_cons.mp h0 with h | h
      · omega
      · have := hat _ h
        omega

theorem isStraight_eq (ranks : List Nat) :
    isStraight ranks =
      (wheelPresent ranks || hasFiveConsecutive ranks) := by
  simp only [isStraight]
  set u := (ranks.dedup).insertionSort (fun a b => a ≤ b) with hu
  have hmemu : ∀ x : Nat, x ∈ u ↔ x ∈ ranks := by
    intro x
    rw [hu, List.mem_insertionSort, List.mem_dedup]
  have hnodup : u.Nodup := by
    rw [hu]
    exact ((List.perm_insertionSort _ _).nodup_iff).mpr (List.nodup_dedup _)
  have hsorted : u.Sorted (fun a b => a ≤ b) := by
    rw [hu]
    exact List.sorted_insertionSort _ _
  have hstrict : u.Sorted (· < ·) := hsorted.lt_of_le hnodup
  have hwheel : ([12, 0, 1, 2, 3].all (fun r => u.contains r)) =
      wheelPresent ranks := by
    apply Bool.eq_iff_iff.mpr
    simp [wheelPresent, List.all_eq_true, hmemu]
  have hscan : ((List.range (u.length - 4)).any (fun i =>
      (List.range 4).all (fun j =>
        u.getD (i + j + 1) 0 == u.getD i 0 + j + 1))) =
      hasFiveConsecutive ranks := by
    apply Bool.eq_iff_iff.mpr
    constructor
    · intro h
      rcases List.any_eq_true.mp h with ⟨i, hi, hall⟩
      rw [List.mem_range] at hi
      have hi4 : i + 4 < u.length := by omega
      have hgd : ∀ j, j < 4 → u.getD (i + j + 1) 0 = u.getD i 0 + j + 1 := by
        intro j hj
        exact beq_iff_eq.mp (List.all_eq_true.mp hall j (List.mem_range.mpr hj))
      have hmemj : ∀ j, j ≤ 4 → u.getD i 0 + j ∈ ranks := by
        intro j hj
        have hidx : i + j < u.length := by omega
        have hval : u.getD (i + j) 0 = u.getD i 0 + j := by
          cases j with
          | zero => simp
          | succ j2 =>
            have h2 := hgd j2 (by omega)
            rw [show i + (j2 + 1) = i + j2 + 1 from by omega, h2]
            omega
        rw [← hval, List.getD_eq_getElem u 0 hidx]
        exact (hmemu _).mp (List.getElem_mem hidx)
      apply List.any_eq_true.mpr
      refine ⟨u.getD i 0, by simpa using hmemj 0 (by omega), ?_⟩
      apply List.all_eq_true.mpr
      intro j hj
      rw [List.mem_range] at hj
      simpa using hmemj j (by omega)
    · intro h
      rcases List.any_eq_true.mp h with ⟨k, hkmem, hall⟩
      have hmemk : ∀ j, j < 5 → (k + j) ∈ u := by
        intro j hj
        have hc := List.all_eq_true.mp hall j (List.mem_range.mpr hj)
        have hr : (k + j) ∈ ranks := by simpa using hc
        exact (hmemu _).mpr hr
      rcases run_infix_of_mem u k hstrict hmemk with ⟨p, s, hps⟩
      have hlenu : u.length = p.length + 5 + s.length := by
        rw [hps]
        simp [natRun_length]
        omega
      have hgd : ∀ m, m < 5 → u.getD (p.length + m) 0 = k + m := by
        intro m hm
        rw [hps, List.append_assoc, List.getD_append_right _ _ _ _
          (by omega : p.length ≤ p.length + m)]
        rw [show p.length + m - p.length = m from by omega]
        rw [List.getD_append _ _ _ _ (by rw [natRun_length]; omega)]
        exact natRun_getD 5 m k 0 hm
      apply List.any_eq_true.mpr
      refine ⟨p.length, List.mem_range.mpr (by omega), ?_⟩
      apply List.all_eq_true.mpr
      intro j hj
      rw [List.mem_range] at hj
      have e1 := hgd (j + 1) (by omega)
      have e0 : u.getD p.length 0 = k := by
        have := hgd 0 (by omega)
        simpa using this
      rw [show p.length + j + 1 = p.length + (j + 1) from by omega, e1, e0]
      simp
      omega
  rw [hwheel, hscan]
  cases hw : wheelPresent ranks <;> simp

/-- C4: the straight test accepts exactly the wheel `{A,2,3,4,5}` (encoded
12,0,1,2,3) on top of runs of five consecutive rank values — no other
wrap-around exists (first conjunct, the full characterization of
`isStraight`).  The wheel rank set is accepted although it is not
consecutive; the hand Ks As 2h 3d 4c 9h 9d (ranks K,A,2,3,4 and no five
consecutive distinct ranks) is not a straight and evaluates below Straight,
while the wheel hand As 2s 3h 4d 5c 9h 9d evaluates to at least Straight. -/
theorem isStraight_wheel_and_no_other_wrap :
    (∀ ranks : List Nat, isStraight ranks =
        (wheelPresent ranks || hasFiveConsecutive ranks)) ∧
      wheelPresent [12, 0, 1, 2, 3] = true ∧
      hasFiveConsecutive [12, 0, 1, 2, 3] = false ∧
      isStraight [12, 0, 1, 2, 3] = true ∧
      isStraight ([11, 12, 13, 27, 41, 20, 33].map getRank) = false ∧
      (evaluateHand [11, 12, 13, 27, 41, 20, 33]).rank < STRAIGHT ∧
      STRAIGHT ≤ (evaluateHand [12, 0, 14, 28, 42, 20, 33]).rank :=
  ⟨isStraight_eq, by decide, by decide, by decide, by decide, by decide,
    by decide⟩
